import Mathlib

/-!
Shallow embedding of `theforeman.py`, a Foreman dynamic-inventory script.

The script queries a Foreman API through a client object (`foreman.client.Foreman`)
and reshapes the responses into an Ansible inventory.  The embedding models:

* JSON-like payload values (`JVal`), since every API response is a decoded JSON
  mapping manipulated through the Python dict interface;
* the per-run resolution cache and the fetch log (`FState`), so that the
  at-most-one-fetch-per-`(type, id)` invariant is statable;
* Python exceptions as `Except String`: an `.error` value is a raised exception
  propagating out of the modelled function.

Conventions:

* Python `None` is `Option.none` at the relevant layer: `d.get(k)` yields
  `none` both for an absent key and for a stored JSON `null` (the `json`
  module decodes `null` to `None`, and `.get` cannot tell the two apart).
* `d.get(k)` on a non-dict value raises `AttributeError`; this is the
  `.error` branch of `pyGet`.
* Source JSON objects are assumed to carry no duplicate keys (the `json`
  module keeps a single binding per key).
-/

mutual
/-- Decoded JSON payload value: a string, a number, or an object. -/
inductive JVal where
  | str (s : String)
  | num (n : Int)
  | obj (fields : JFields)
  deriving DecidableEq
/-- Field list of a JSON object, in document order. -/
inductive JFields where
  | nil
  | cons (k : String) (v : JVal) (rest : JFields)
  deriving DecidableEq
end

/-- First binding of a key in an object, as Python dict lookup. -/
def JFields.lookup : JFields → String → Option JVal
  | .nil, _ => none
  | .cons k v rest, key => if k = key then some v else rest.lookup key

/-- Python `value.get(key)`: returns the binding (or `None`) on a dict, raises
`AttributeError` on anything else. -/
def pyGet : JVal → String → Except String (Option JVal)
  | .obj fields, key => .ok (fields.lookup key)
  | .str _, _ => .error "AttributeError: str has no attribute get"
  | .num _, _ => .error "AttributeError: int has no attribute get"

/-- Python `str(x)` as used by `"{0}-{1}".format(...)` on scalar JSON fields.
`str(None)` is `"None"`; the dict repr is not modelled (never exercised: only
the `name` and `major` fields of an operating system reach this function). -/
def pyStr : Option JVal → String
  | none => "None"
  | some (.str s) => s
  | some (.num n) => toString n
  | some (.obj _) => "<dict repr>"

/-- Python `str.lower()` (payloads are ASCII; locale subtleties not modelled). -/
def pyLower (s : String) : String := s.toLower

/-- The closed set of object types the script resolves.  These are exactly the
keys of `_empty_cache` (source lines 142-144); every call site passes one of
them, so the reflective `show_<type>s` dispatch becomes a typed table. -/
inductive ObjType where
  | operatingsystem
  | hostgroup
  | environment
  | model
  | compute_resource
  | domain
  | subnet
  | architecture
  | host
  deriving DecidableEq, Fintype

/-- The string tag of an object type, used as wrapper key, as `<type>_id`
foreign-key stem, and as `host_desc` output key. -/
def ObjType.key : ObjType → String
  | .operatingsystem => "operatingsystem"
  | .hostgroup => "hostgroup"
  | .environment => "environment"
  | .model => "model"
  | .compute_resource => "compute_resource"
  | .domain => "domain"
  | .subnet => "subnet"
  | .architecture => "architecture"
  | .host => "host"

/-- The upstream Foreman client (external collaborator, not reimplemented).
`hostPages` gives the finite paginated host listing: 1-based page `i` holds
`hostPages[i-1]`, and every page past the end is empty.  `show_object t i`
models the `show_<t>s(i)` call and returns the raw wrapper object (a mapping
with the entity nested under the `t` key when the entity exists). -/
structure Client where
  hostPages : List (List JVal)
  show_object : ObjType → JVal → JVal

/-- Python `self.client.index_hosts(page=page)`. -/
def Client.index_hosts (c : Client) (page : Nat) : List JVal :=
  c.hostPages.getD (page - 1) []

/-- Run state of a `ForemanInventory` instance: the per-type resolution cache
(`_cache`, flattened to association entries keyed by `(type, id)`) and the log
of `show_<type>s` fetches issued so far, in order.  The log is ghost
instrumentation used to state the at-most-one-fetch invariant. -/
structure FState where
  cache : List ((ObjType × JVal) × JVal)
  fetchLog : List (ObjType × JVal)
  deriving DecidableEq

/-- Cache lookup, modelling `self._cache.get(obj_type).get(obj_id, None)`. -/
def cacheLookup : List ((ObjType × JVal) × JVal) → ObjType × JVal → Option JVal
  | [], _ => none
  | (k, v) :: rest, key => if k = key then some v else cacheLookup rest key

/-- State after `_empty_cache()`: every per-type bucket empty, nothing fetched. -/
def empty_cache_state : FState := ⟨[], []⟩

/-- Model of `ForemanInventory._get_object_from_id` (source lines 246-256).
`none` for `obj_id` is Python `None`.  On a cache miss the wrapper returned by
`show_<type>s` is stored in the cache and the fetch is logged; either way the
result is `wrapper.get(obj_type)`, the nested entity (or `None`).  The stored
wrapper is a `JVal`, never Python `None`: a client returning `None` would raise
on the immediately following `.get` before any later call could observe it. -/
def get_object_from_id (c : Client) (t : ObjType) (id? : Option JVal) (s : FState) :
    Except String (Option JVal × FState) :=
  match id? with
  | none => .ok (none, s)
  | some i =>
    match cacheLookup s.cache (t, i) with
    | some obj => do
        let v ← pyGet obj t.key
        .ok (v, s)
    | none =>
        let obj := c.show_object t i
        let s1 : FState := ⟨((t, i), obj) :: s.cache, s.fetchLog ++ [(t, i)]⟩
        do
          let v ← pyGet obj t.key
          .ok (v, s1)

/-- Model of `ForemanInventory._get_from_id` (source lines 221-244): resolve the
id, then project a display value by type — `label` for a hostgroup, the
`"{0}-{1}".format(name, major)` string for an operating system, the
lower-cased `name` for an environment (raising if `name` is absent or not a
string, as `.lower()` would), and `name` for every other type. -/
def get_from_id (c : Client) (t : ObjType) (id? : Option JVal) (s : FState) :
    Except String (Option JVal × FState) := do
  let (param?, s1) ← get_object_from_id c t id? s
  match param? with
  | none => .ok (none, s1)
  | some param =>
    match t with
    | .hostgroup => do
        let v ← pyGet param "label"
        .ok (v, s1)
    | .operatingsystem => do
        let n ← pyGet param "name"
        let m ← pyGet param "major"
        .ok (some (.str (pyStr n ++ "-" ++ pyStr m)), s1)
    | .environment => do
        let n ← pyGet param "name"
        match n with
        | some (.str nm) => .ok (some (.str (pyLower nm)), s1)
        | _ => .error "AttributeError: value has no attribute lower"
    | _ => do
        let v ← pyGet param "name"
        .ok (v, s1)

/-- Model of `ForemanInventory._get_from_type` (source lines 218-219): read the
`<type>_id` foreign key off the host record and resolve it. -/
def get_from_type (c : Client) (t : ObjType) (host : JVal) (s : FState) :
    Except String (Option JVal × FState) := do
  let id? ← pyGet host (t.key ++ "_id")
  get_from_id c t id? s

/-- Python dict assignment `d[k] = v` on the `host_desc` output mapping:
update in place if the key exists, else append, preserving insertion order. -/
def dset : List (String × Option JVal) → String → Option JVal → List (String × Option JVal)
  | [], k, v => [(k, v)]
  | (k0, v0) :: rest, k, v =>
    if k0 = k then (k0, v) :: rest else (k0, v0) :: dset rest k v

/-- Python dict lookup on the output mapping: `some v` when the key is present
(with `v` possibly Python `None`), `none` when the key is absent. -/
def dget : List (String × Option JVal) → String → Option (Option JVal)
  | [], _ => none
  | (k0, v0) :: rest, k => if k0 = k then some v0 else dget rest k

/-- Loop `for k in [...]: host_desc[k] = meta.get(k)` (source lines 170-171). -/
def copy_meta_fields (meta : JVal) :
    List String → List (String × Option JVal) → Except String (List (String × Option JVal))
  | [], hd => .ok hd
  | k :: ks, hd => do
    let v ← pyGet meta k
    copy_meta_fields meta ks (dset hd k v)

/-- Loop `for k in ['created', 'updated']: host_desc[k] = meta.get(k + '_at')`
(source lines 175-176). -/
def copy_at_fields (meta : JVal) :
    List String → List (String × Option JVal) → Except String (List (String × Option JVal))
  | [], hd => .ok hd
  | k :: ks, hd => do
    let v ← pyGet meta (k ++ "_at")
    copy_at_fields meta ks (dset hd k v)

/-- Loop `for k in [...]: host_desc[k] = self._get_from_type(k, meta)`
(source lines 172-174). -/
def resolve_type_fields (c : Client) (meta : JVal) :
    List ObjType → List (String × Option JVal) → FState →
    Except String (List (String × Option JVal) × FState)
  | [], hd, s => .ok (hd, s)
  | t :: ts, hd, s => do
    let (v, s1) ← get_from_type c t meta s
    resolve_type_fields c meta ts (dset hd t.key v) s1

/-- The guarded nested lookup
`meta.get('environment').get('environment').get('name').lower()` of source
lines 178-182: every raised exception (a `.get` or `.lower` on `None` or on a
non-dict/non-string value) is swallowed by the surrounding `try/except`, so the
whole step either produces the lower-cased name or yields nothing. -/
def env_lookup (meta : JVal) : Option String :=
  match pyGet meta "environment" with
  | .error _ => none
  | .ok none => none
  | .ok (some v1) =>
    match pyGet v1 "environment" with
    | .error _ => none
    | .ok none => none
    | .ok (some v2) =>
      match pyGet v2 "name" with
      | .error _ => none
      | .ok none => none
      | .ok (some (.str nm)) => some (pyLower nm)
      | .ok (some _) => none

/-- Model of `ForemanInventory.get_host_info` (source lines 163-185), the
spec operation `hostDetail`.  Assembles the flat per-host mapping in the
source assignment order; returns the empty mapping when the host entity is
missing; sets the `environment` key only when the guarded nested lookup
succeeds; mirrors `ip` into `ansible_ssh_host` via a dict lookup. -/
def get_host_info (c : Client) (host_id : Option JVal) (s : FState) :
    Except String (List (String × Option JVal) × FState) := do
  let (meta?, s1) ← get_object_from_id c .host host_id s
  match meta? with
  | none => .ok ([], s1)
  | some meta => do
    let hd1 ← copy_meta_fields meta ["id", "ip", "name", "status"] []
    let (hd2, s2) ← resolve_type_fields c meta
      [.model, .compute_resource, .domain, .subnet, .architecture, .hostgroup] hd1 s1
    let hd3 ← copy_at_fields meta ["created", "updated"] hd2
    let (osv, s3) ← get_from_type c .operatingsystem meta s2
    let hd4 := dset hd3 "os" osv
    let hd5 :=
      match env_lookup meta with
      | some nm => dset hd4 "environment" (some (.str nm))
      | none => hd4
    match dget hd5 "ip" with
    | some ipv => .ok (dset hd5 "ansible_ssh_host" ipv, s3)
    | none => .error "KeyError: ip"

/-- The pagination loop of `get_inventory` (source lines 191-197): request page
`page`, stop on an empty response, otherwise accumulate and move to the next
page.  Returns the accumulated host wrappers and the list of requested page
numbers.  The fuel argument bounds the recursion; `fetch_all_pages` supplies
`hostPages.length + 1`, which always reaches the empty page of the finite
listing before running out, so the fuel-exhaustion branch is unreachable. -/
def index_pages_loop (c : Client) : Nat → Nat → List JVal × List Nat
  | 0, _ => ([], [])
  | fuel + 1, page =>
    let resp := c.index_hosts page
    if resp.length < 1 then ([], [page])
    else
      let (hs, reqs) := index_pages_loop c fuel (page + 1)
      (resp ++ hs, page :: reqs)

/-- All hosts gathered by the pagination loop starting at page 1, with the
page numbers requested. -/
def fetch_all_pages (c : Client) : List JVal × List Nat :=
  index_pages_loop c (c.hostPages.length + 1) 1

/-- Python `wrapper.get('host').get(key)` on a listing entry: each element of
an `index_hosts` response nests the actual host fields under the `host` key,
and a `.get` on a `None` inner value raises. -/
def host_wrapper_field (w : JVal) (key : String) : Except String (Option JVal) := do
  let inner? ← pyGet w "host"
  match inner? with
  | none => .error "AttributeError: NoneType has no attribute get"
  | some inner => pyGet inner key

/-- The grouping mapping built by `get_inventory`: group key (resolved
hostgroup display value, possibly Python `None`) to the list of host names in
encounter order.  Keys appear in first-insertion order. -/
abbrev GroupMap := List (Option JVal × List (Option JVal))

/-- Python `groups[host_group].append(server_name)` on a `defaultdict(list)`:
create the key with an empty list on first access, then append at the end. -/
def groups_append (gs : GroupMap) (k : Option JVal) (v : Option JVal) : GroupMap :=
  match gs with
  | [] => [(k, [v])]
  | (k0, vs) :: rest =>
    if k0 = k then (k0, vs ++ [v]) :: rest else (k0, vs) :: groups_append rest k v

/-- Lookup of a group key in the grouping mapping. -/
def glookup : GroupMap → Option JVal → Option (List (Option JVal))
  | [], _ => none
  | (k0, vs) :: rest, k => if k0 = k then some vs else glookup rest k

/-- The host loop of `get_inventory` (source lines 200-203): resolve the
hostgroup of each wrapper, then file the host name under that group. -/
def inventory_loop (c : Client) :
    List JVal → GroupMap → FState → Except String (GroupMap × FState)
  | [], gs, s => .ok (gs, s)
  | w :: ws, gs, s => do
    let hgid ← host_wrapper_field w "hostgroup_id"
    let (hg, s1) ← get_from_id c .hostgroup hgid s
    let name ← host_wrapper_field w "name"
    inventory_loop c ws (groups_append gs hg name) s1

/-- Model of `ForemanInventory.get_inventory` (source lines 187-204), the spec
operation `groupedInventory`: paginate the host listing, return the empty
grouping when no hosts exist, else group host names by resolved hostgroup. -/
def get_inventory (c : Client) (s : FState) : Except String (GroupMap × FState) :=
  let (hosts, _reqs) := fetch_all_pages c
  if hosts.length < 1 then .ok ([], s)
  else inventory_loop c hosts [] s

/-- Key-dedup of `for group in groups: for host in groups[group]: hosts[host] = True`
(source lines 210-212): first-encounter order, later duplicates ignored. -/
def py_dedup : List (Option JVal) → List (Option JVal) → List (Option JVal)
  | [], acc => acc
  | x :: xs, acc => if x ∈ acc then py_dedup xs acc else py_dedup xs (acc ++ [x])

/-- All host names of the grouping, groups in order, each group in order. -/
def all_group_names (gs : GroupMap) : List (Option JVal) :=
  gs.flatMap (fun g => g.2)

/-- The `_meta.hostvars` mapping: host name to per-host detail mapping. -/
abbrev Hostvars := List (Option JVal × List (String × Option JVal))

/-- Loop `for host in hosts: hosts[host] = self.get_host_info(host)` (source
lines 213-214): one `get_host_info` call per distinct host name, in order. -/
def collect_host_details (c : Client) :
    List (Option JVal) → Hostvars → FState → Except String (Hostvars × FState)
  | [], acc, s => .ok (acc, s)
  | n :: ns, acc, s => do
    let (d, s1) ← get_host_info c n s
    collect_host_details c ns (acc ++ [(n, d)]) s1

/-- An inventory document as printed: the grouping, and the `_meta` key when
present (`meta = some hv` models a `_meta: {hostvars: hv}` entry, `none` its
absence).  A hostgroup literally labelled `_meta` would collide with the
reserved key in Python; the model keeps the reserved key apart. -/
structure InventoryDoc where
  groups : GroupMap
  meta : Option Hostvars
  deriving DecidableEq

/-- Value of `_empty_inventory()` (source lines 136-138): only the reserved
`_meta.hostvars` entry, empty.  Assigned to `self.inventory` at construction
and never read or returned afterwards. -/
def empty_inventory : InventoryDoc := ⟨[], some []⟩

/-- Model of `ForemanInventory.get_all` (source lines 206-216), the spec
operation `allHostsWithVars`: grouped inventory, dedup of host names across
groups, one detail fetch per distinct name, `_meta.hostvars` attached. -/
def get_all (c : Client) (s : FState) : Except String (InventoryDoc × FState) := do
  let (groups, s1) ← get_inventory c s
  let (hostvars, s2) ← collect_host_details c (py_dedup (all_group_names groups) []) [] s1
  .ok (⟨groups, some hostvars⟩, s2)

/-- Parsed command-line options (source lines 121-131). -/
structure CLIArgs where
  all : Bool
  host : Option String
  list : Bool
  deriving DecidableEq

/-- Model of `CLIMain.parse_cli_args`: `--all` is a store-true flag defaulting
to `None` (falsy), `--host` stores an optional string, and `--list` is a
store-true flag whose default is already `True`, so the parsed value is `True`
whether or not the flag is given. -/
def parse_cli_args (all_given : Bool) (host_given : Option String) (list_given : Bool) :
    CLIArgs :=
  { all := all_given, host := host_given, list := list_given || true }

/-- Python truthiness of `self.args.host`: `None` and the empty string are
falsy, any other string is truthy. -/
def py_truthy_str : Option String → Bool
  | none => false
  | some s => decide (s ≠ "")

/-- The document printed by `CLIMain.__init__`: an inventory mapping, a single
host detail mapping, or the bare empty mapping of the fallback branch. -/
inductive CLIOutput where
  | doc (d : InventoryDoc)
  | host_info (hd : List (String × Option JVal))
  | empty_map
  deriving DecidableEq

/-- The dispatch of `CLIMain.__init__` (source lines 91-98): `--all`, then
`--host`, then `--list`, then the empty mapping.  In the `--host` branch the
CLI string is passed to `get_host_info` as the id; when the truthiness test
holds, `a.host` is `some h` with `h` nonempty and `getD` returns `h`. -/
def main_dispatch (c : Client) (a : CLIArgs) (s : FState) :
    Except String (CLIOutput × FState) :=
  if a.all then do
    let (d, s1) ← get_all c s
    .ok (.doc d, s1)
  else if py_truthy_str a.host then do
    let (hd, s1) ← get_host_info c (some (.str (a.host.getD ""))) s
    .ok (.host_info hd, s1)
  else if a.list then do
    let (gs, s1) ← get_inventory c s
    .ok (.doc ⟨gs, none⟩, s1)
  else
    .ok (.empty_map, s)

/-- An ini configuration: sections, each a list of option bindings. -/
structure IniConfig where
  sections : List (String × List (String × String))
  deriving DecidableEq

/-- Association lookup used for sections and options. -/
def ini_lookup {α : Type} : List (String × α) → String → Option α
  | [], _ => none
  | (k, v) :: rest, key => if k = key then some v else ini_lookup rest key

/-- Message of a `ConfigParser.NoSectionError` (Python quotes the section
name in the real message; the quoting is elided). -/
def no_section_msg (sec : String) : String := "No section: " ++ sec

/-- Message of a `ConfigParser.NoOptionError` (quoting elided). -/
def no_option_msg (opt sec : String) : String :=
  "No option " ++ opt ++ " in section: " ++ sec

/-- The enumerating message built at source lines 117-118. -/
def missing_values_msg (missing : List String) : String :=
  "Could not find values for Foreman " ++ String.intercalate ", " missing ++
    ". They must be specified via ini file."

/-- Model of Python 2 `ConfigParser.SafeConfigParser.get`: raises
`NoSectionError` when the section is absent and `NoOptionError` when the
option is absent — it returns a string or raises, never `None`. -/
def IniConfig.get (cfg : IniConfig) (sec opt : String) : Except String String :=
  match ini_lookup cfg.sections sec with
  | none => .error (no_section_msg sec)
  | some opts =>
    match ini_lookup opts opt with
    | none => .error (no_option_msg opt sec)
    | some v => .ok v

/-- The settings loop of `CLIMain.read_settings` (source lines 111-115).  The
source guards `if val is None: missing.append(setting)`, but `config.get`
either returns a string or raises, so the guard cannot fire: the `missing`
accumulator is threaded through unchanged. -/
def read_settings_loop (cfg : IniConfig) :
    List String → List (String × String) → List String →
    Except String (List (String × String) × List String)
  | [], settings, missing => .ok (settings, missing)
  | r :: rs, settings, missing => do
    let val ← cfg.get "foreman" r
    read_settings_loop cfg rs (settings ++ [(r, val)]) missing

/-- The three required settings (source line 109). -/
def required_settings : List String := ["base_url", "username", "password"]

/-- Model of `CLIMain.read_settings` (source lines 101-119): read the three
required options of the `foreman` section, then raise the enumerating error
if any were recorded as missing. -/
def read_settings (cfg : IniConfig) : Except String (List (String × String)) := do
  let (settings, missing) ← read_settings_loop cfg required_settings [] []
  if missing ≠ [] then .error (missing_values_msg missing)
  else .ok settings

/-! Concrete fixtures: a small Foreman instance used to evaluate the
operations on closed inputs.  `fix_client` serves two hosts on page 1 (both
in hostgroup 7), and resolves hostgroup 7, operating system 3, environment 4
and model 5; host `gamma` has no `hostgroup_id`; any other lookup yields a
wrapper without the entity key, i.e. a missing entity. -/

/-- Host record of `alpha`: full fields, nested environment payload. -/
def rec_alpha : JVal :=
  .obj (.cons "id" (.num 1)
    (.cons "ip" (.str "10.0.0.1")
      (.cons "name" (.str "alpha")
        (.cons "status" (.str "OK")
          (.cons "created_at" (.str "2014-01-01")
            (.cons "updated_at" (.str "2014-02-01")
              (.cons "hostgroup_id" (.num 7)
                (.cons "operatingsystem_id" (.num 3)
                  (.cons "model_id" (.num 5)
                    (.cons "environment"
                      (.obj (.cons "environment"
                        (.obj (.cons "name" (.str "PRODUCTION") .nil)) .nil))
                      .nil))))))))))

/-- Host record of `beta`: same hostgroup as `alpha`, no other references. -/
def rec_beta : JVal :=
  .obj (.cons "id" (.num 2)
    (.cons "ip" (.str "10.0.0.2")
      (.cons "name" (.str "beta")
        (.cons "status" (.str "OK")
          (.cons "hostgroup_id" (.num 7) .nil)))))

/-- Host record of `gamma`: no `hostgroup_id` foreign key at all. -/
def rec_gamma : JVal :=
  .obj (.cons "id" (.num 3)
    (.cons "ip" (.str "10.0.0.3")
      (.cons "name" (.str "gamma")
        (.cons "status" (.str "OK") .nil))))

/-- Listing wrapper of a host record, as returned by `index_hosts`. -/
def wrap_host (r : JVal) : JVal := .obj (.cons "host" r .nil)

/-- The entity wrapper returned by `show_hostgroups(7)`. -/
def wrap_hg7 : JVal :=
  .obj (.cons "hostgroup"
    (.obj (.cons "label" (.str "web") (.cons "name" (.str "ignored") .nil))) .nil)

/-- The entity wrapper returned by `show_operatingsystems(3)`. -/
def wrap_os3 : JVal :=
  .obj (.cons "operatingsystem"
    (.obj (.cons "name" (.str "CentOS") (.cons "major" (.str "7") .nil))) .nil)

/-- The entity wrapper returned by `show_environments(4)`. -/
def wrap_env4 : JVal :=
  .obj (.cons "environment" (.obj (.cons "name" (.str "PRODUCTION") .nil)) .nil)

/-- The entity wrapper returned by `show_models(5)`. -/
def wrap_model5 : JVal :=
  .obj (.cons "model" (.obj (.cons "name" (.str "m5") .nil)) .nil)

/-- The fixture client: two hosts on page 1, nothing on later pages. -/
def fix_client : Client where
  hostPages := [[wrap_host rec_alpha, wrap_host rec_beta]]
  show_object := fun t i =>
    match t, i with
    | .hostgroup, .num 7 => wrap_hg7
    | .operatingsystem, .num 3 => wrap_os3
    | .environment, .num 4 => wrap_env4
    | .model, .num 5 => wrap_model5
    | .host, .str "alpha" => wrap_host rec_alpha
    | .host, .str "beta" => wrap_host rec_beta
    | .host, .str "gamma" => wrap_host rec_gamma
    | _, _ => .obj .nil

/-- First host record named `dup` (hostgroup 1). -/
def dup_rec1 : JVal :=
  .obj (.cons "name" (.str "dup")
    (.cons "ip" (.str "10.1.0.1") (.cons "hostgroup_id" (.num 1) .nil)))

/-- Second host record named `dup` (hostgroup 2). -/
def dup_rec2 : JVal :=
  .obj (.cons "name" (.str "dup")
    (.cons "ip" (.str "10.1.0.1") (.cons "hostgroup_id" (.num 2) .nil)))

/-- Hostgroup wrapper carrying only a label. -/
def dup_hg_wrap (label : String) : JVal :=
  .obj (.cons "hostgroup" (.obj (.cons "label" (.str label) .nil)) .nil)

/-- A client whose two hosts share one name across two different hostgroups,
exercising the dedup of `get_all`. -/
def dup_client : Client where
  hostPages := [[wrap_host dup_rec1, wrap_host dup_rec2]]
  show_object := fun t i =>
    match t, i with
    | .hostgroup, .num 1 => dup_hg_wrap "g1"
    | .hostgroup, .num 2 => dup_hg_wrap "g2"
    | .host, .str "dup" => wrap_host dup_rec1
    | _, _ => .obj .nil

/-- The host detail mapping of `dup` (resolved through hostgroup 1; the `id`
and `status` fields are absent on the record, so they hold Python `None`). -/
def dup_hd : List (String × Option JVal) :=
  [("id", none), ("ip", some (.str "10.1.0.1")), ("name", some (.str "dup")),
   ("status", none), ("model", none), ("compute_resource", none),
   ("domain", none), ("subnet", none), ("architecture", none),
   ("hostgroup", some (.str "g1")), ("created", none), ("updated", none),
   ("os", none), ("ansible_ssh_host", some (.str "10.1.0.1"))]

/-- The `--all` document of `dup_client`: the host name `dup` appears in two
groups but `_meta.hostvars` holds exactly one entry for it. -/
def dup_doc : InventoryDoc :=
  ⟨[(some (.str "g1"), [some (.str "dup")]), (some (.str "g2"), [some (.str "dup")])],
   some [(some (.str "dup"), dup_hd)]⟩

/-- Final run state of `get_all` on `dup_client`: three fetches, none
repeated. -/
def dup_state2 : FState :=
  ⟨[((ObjType.host, JVal.str "dup"), wrap_host dup_rec1),
    ((ObjType.hostgroup, JVal.num 2), dup_hg_wrap "g2"),
    ((ObjType.hostgroup, JVal.num 1), dup_hg_wrap "g1")],
   [(ObjType.hostgroup, JVal.num 1), (ObjType.hostgroup, JVal.num 2),
    (ObjType.host, JVal.str "dup")]⟩

/-- The hostgroup entity nested in `wrap_hg7`. -/
def hg7_entity : JVal :=
  .obj (.cons "label" (.str "web") (.cons "name" (.str "ignored") .nil))

/-- CLI arguments of a bare `./theforeman.py` invocation (list mode). -/
def args_list : CLIArgs := parse_cli_args false none false

/-- CLI arguments of `./theforeman.py --all`. -/
def args_all : CLIArgs := parse_cli_args true none false

/-- An ini file whose `foreman` section has only `username`: both `base_url`
and `password` are missing. -/
def cfg_missing_two : IniConfig := ⟨[("foreman", [("username", "u")])]⟩

/-- Every fetch logged so far has left an entry in the cache.  This holds of
the empty state and is preserved by every operation; it is what makes a
repeated resolution a guaranteed cache hit. -/
def cache_complete (s : FState) : Prop :=
  ∀ p ∈ s.fetchLog, (cacheLookup s.cache p).isSome

/-- Run invariant: no `(type, id)` pair was fetched twice, and every fetched
pair is cached. -/
def good_state (s : FState) : Prop :=
  s.fetchLog.Nodup ∧ cache_complete s

/-- The grouping produced by `get_inventory` on the fixture client. -/
def fix_groups : GroupMap :=
  [(some (.str "web"), [some (.str "alpha"), some (.str "beta")])]

/-- The run state after `get_inventory` on the fixture client: one hostgroup
wrapper cached, one fetch logged. -/
def fix_state1 : FState :=
  ⟨[((ObjType.hostgroup, JVal.num 7), wrap_hg7)], [(ObjType.hostgroup, JVal.num 7)]⟩

/-- The operating-system entity nested in `wrap_os3`. -/
def os3_entity : JVal :=
  .obj (.cons "name" (.str "CentOS") (.cons "major" (.str "7") .nil))

/-- Run state after resolving operating system 3 from the empty state. -/
def os3_state : FState :=
  ⟨[((ObjType.operatingsystem, JVal.num 3), wrap_os3)],
   [(ObjType.operatingsystem, JVal.num 3)]⟩

/-- Run state after looking up the unknown host `nosuch` from the empty state:
the fetch happened and returned a wrapper with no `host` entity. -/
def nosuch_state : FState :=
  ⟨[((ObjType.host, JVal.str "nosuch"), JVal.obj .nil)],
   [(ObjType.host, JVal.str "nosuch")]⟩

/-- The host detail mapping of `gamma`: every reference missing, no
`environment` key (its nested lookup failed silently). -/
def gamma_hd : List (String × Option JVal) :=
  [("id", some (.num 3)), ("ip", some (.str "10.0.0.3")),
   ("name", some (.str "gamma")), ("status", some (.str "OK")),
   ("model", none), ("compute_resource", none), ("domain", none),
   ("subnet", none), ("architecture", none), ("hostgroup", none),
   ("created", none), ("updated", none), ("os", none),
   ("ansible_ssh_host", some (.str "10.0.0.3"))]

/-- Run state after `get_host_info` on `gamma` from the empty state: only the
host record itself was fetched. -/
def gamma_state : FState :=
  ⟨[((ObjType.host, JVal.str "gamma"), wrap_host rec_gamma)],
   [(ObjType.host, JVal.str "gamma")]⟩

/-- A client with no hosts at all. -/
def empty_client : Client := ⟨[], fun _ _ => .obj .nil⟩

/-! Helper lemmas. -/

theorem exbind_ok {α β : Type} {e : Except String α} {f : α → Except String β} {b : β}
    (h : (e >>= f) = .ok b) : ∃ a, e = .ok a ∧ f a = .ok b := by
  cases e with
  | error a => simp [Bind.bind, Except.bind] at h
  | ok a => exact ⟨a, rfl, by simpa [Bind.bind, Except.bind] using h⟩

theorem dget_dset_self (hd : List (String × Option JVal)) (k : String) (v : Option JVal) :
    dget (dset hd k v) k = some v := by
  induction hd with
  | nil => simp [dset, dget]
  | cons e rest ih =>
    obtain ⟨k0, v0⟩ := e
    by_cases hk : k0 = k <;> simp [dset, dget, hk, ih]

theorem dget_dset_ne (hd : List (String × Option JVal)) (k k2 : String) (v : Option JVal)
    (hne : k ≠ k2) : dget (dset hd k v) k2 = dget hd k2 := by
  induction hd with
  | nil => simp [dset, dget, hne]
  | cons e rest ih =>
    obtain ⟨k0, v0⟩ := e
    by_cases hk : k0 = k
    · subst hk
      simp [dset, dget, hne]
    · simp [dset, dget, hk, ih]

theorem copy_meta_fields_dget_ne (meta : JVal) :
    ∀ (ks : List String) (hd hd1 : List (String × Option JVal)) (key : String),
      key ∉ ks → copy_meta_fields meta ks hd = .ok hd1 →
      dget hd1 key = dget hd key := by
  intro ks
  induction ks with
  | nil =>
    intro hd hd1 key _ h
    simp [copy_meta_fields] at h
    simp [h]
  | cons k rest ih =>
    intro hd hd1 key hmem h
    simp [copy_meta_fields] at h
    obtain ⟨v, hv, hrec⟩ := exbind_ok h
    have h1 : dget hd1 key = dget (dset hd k v) key :=
      ih (dset hd k v) hd1 key (fun hc => hmem (List.mem_cons_of_mem _ hc)) hrec
    rw [h1, dget_dset_ne]
    intro hk
    exact hmem (hk ▸ List.mem_cons_self k rest)

theorem copy_at_fields_dget_ne (meta : JVal) :
    ∀ (ks : List String) (hd hd1 : List (String × Option JVal)) (key : String),
      key ∉ ks → copy_at_fields meta ks hd = .ok hd1 →
      dget hd1 key = dget hd key := by
  intro ks
  induction ks with
  | nil =>
    intro hd hd1 key _ h
    simp [copy_at_fields] at h
    simp [h]
  | cons k rest ih =>
    intro hd hd1 key hmem h
    simp [copy_at_fields] at h
    obtain ⟨v, hv, hrec⟩ := exbind_ok h
    have h1 : dget hd1 key = dget (dset hd k v) key :=
      ih (dset hd k v) hd1 key (fun hc => hmem (List.mem_cons_of_mem _ hc)) hrec
    rw [h1, dget_dset_ne]
    intro hk
    exact hmem (hk ▸ List.mem_cons_self k rest)

theorem resolve_type_fields_dget_ne (c : Client) (meta : JVal) :
    ∀ (ts : List ObjType) (hd hd1 : List (String × Option JVal)) (s s1 : FState)
      (key : String),
      key ∉ ts.map ObjType.key →
      resolve_type_fields c meta ts hd s = .ok (hd1, s1) →
      dget hd1 key = dget hd key := by
  intro ts
  induction ts with
  | nil =>
    intro hd hd1 s s1 key _ h
    simp [resolve_type_fields] at h
    simp [h.1]
  | cons t rest ih =>
    intro hd hd1 s s1 key hmem h
    simp [resolve_type_fields] at h
    obtain ⟨⟨v, s2⟩, hv, hrec⟩ := exbind_ok h
    have hkey : key ∉ rest.map ObjType.key := by
      intro hc
      exact hmem (by simp [hc])
    have h1 : dget hd1 key = dget (dset hd t.key v) key :=
      ih (dset hd t.key v) hd1 s2 s1 key hkey hrec
    rw [h1, dget_dset_ne]
    intro hk
    exact hmem (by simp [hk])

theorem gofi_inv {c : Client} {t : ObjType} {id? : Option JVal} {s : FState}
    {v : Option JVal} {s1 : FState}
    (h : get_object_from_id c t id? s = .ok (v, s1)) :
    (id? = none ∧ v = none ∧ s1 = s) ∨
    (∃ i obj, id? = some i ∧ cacheLookup s.cache (t, i) = some obj ∧
      pyGet obj t.key = .ok v ∧ s1 = s) ∨
    (∃ i, id? = some i ∧ cacheLookup s.cache (t, i) = none ∧
      pyGet (c.show_object t i) t.key = .ok v ∧
      s1 = ⟨((t, i), c.show_object t i) :: s.cache, s.fetchLog ++ [(t, i)]⟩) := by
  match id? with
  | none =>
    left
    simp [get_object_from_id] at h
    exact ⟨rfl, h.1.symm, h.2.symm⟩
  | some i =>
    simp only [get_object_from_id] at h
    cases hcl : cacheLookup s.cache (t, i) with
    | some obj =>
      right; left
      rw [hcl] at h
      obtain ⟨w, hw, hrest⟩ := exbind_ok h
      simp at hrest
      exact ⟨i, obj, rfl, hcl, hrest.1 ▸ hw, hrest.2.symm⟩
    | none =>
      right; right
      rw [hcl] at h
      obtain ⟨w, hw, hrest⟩ := exbind_ok h
      simp at hrest
      exact ⟨i, rfl, hcl, hrest.1 ▸ hw, hrest.2.symm⟩

theorem gofi_good {c : Client} {t : ObjType} {id? : Option JVal} {s : FState}
    {v : Option JVal} {s1 : FState}
    (hg : good_state s) (h : get_object_from_id c t id? s = .ok (v, s1)) :
    good_state s1 := by
  rcases gofi_inv h with ⟨_, _, rfl⟩ | ⟨i, obj, _, _, _, rfl⟩ | ⟨i, _, hcl, _, rfl⟩
  · exact hg
  · exact hg
  · obtain ⟨hnd, hcc⟩ := hg
    have hnotin : (t, i) ∉ s.fetchLog := by
      intro hmem
      have := hcc (t, i) hmem
      rw [hcl] at this
      simp at this
    constructor
    · simpa [List.nodup_append] using ⟨hnd, hnotin⟩
    · intro p hp
      by_cases hpe : (t, i) = p
      · simp [cacheLookup, hpe]
      · have hpold : p ∈ s.fetchLog := by
          rcases List.mem_append.mp hp with h1 | h1
          · exact h1
          · simp at h1
            exact absurd h1.symm hpe
        have := hcc p hpold
        simpa [cacheLookup, hpe] using this

theorem gofi_log_mem {c : Client} {t : ObjType} {id? : Option JVal} {s : FState}
    {v : Option JVal} {s1 : FState}
    (h : get_object_from_id c t id? s = .ok (v, s1)) :
    ∀ p ∈ s1.fetchLog, p ∈ s.fetchLog ∨ p.1 = t := by
  rcases gofi_inv h with ⟨_, _, rfl⟩ | ⟨i, obj, _, _, _, rfl⟩ | ⟨i, _, _, _, rfl⟩
  · exact fun p hp => Or.inl hp
  · exact fun p hp => Or.inl hp
  · intro p hp
    rcases List.mem_append.mp hp with h1 | h1
    · exact Or.inl h1
    · simp at h1
      right
      rw [h1]

theorem gfi_inv_state {c : Client} {t : ObjType} {id? : Option JVal} {s : FState}
    {v : Option JVal} {s1 : FState}
    (h : get_from_id c t id? s = .ok (v, s1)) :
    ∃ w, get_object_from_id c t id? s = .ok (w, s1) := by
  simp only [get_from_id] at h
  obtain ⟨⟨param?, s2⟩, hg, hrest⟩ := exbind_ok h
  refine ⟨param?, ?_⟩
  cases param? with
  | none =>
    simp at hrest
    rw [← hrest.2]
    exact hg
  | some param =>
    cases t with
    | hostgroup =>
      obtain ⟨w, _, hr⟩ := exbind_ok hrest
      simp at hr
      rw [← hr.2]
      exact hg
    | operatingsystem =>
      obtain ⟨w, _, hr⟩ := exbind_ok hrest
      obtain ⟨w2, _, hr2⟩ := exbind_ok hr
      simp at hr2
      rw [← hr2.2]
      exact hg
    | environment =>
      obtain ⟨w, _, hr⟩ := exbind_ok hrest
      match w with
      | some (.str nm) =>
        simp at hr
        rw [← hr.2]
        exact hg
      | none => simp at hr
      | some (.num n) => simp at hr
      | some (.obj fs) => simp at hr
    | model =>
      obtain ⟨w, _, hr⟩ := exbind_ok hrest
      simp at hr
      rw [← hr.2]
      exact hg
    | compute_resource =>
      obtain ⟨w, _, hr⟩ := exbind_ok hrest
      simp at hr
      rw [← hr.2]
      exact hg
    | domain =>
      obtain ⟨w, _, hr⟩ := exbind_ok hrest
      simp at hr
      rw [← hr.2]
      exact hg
    | subnet =>
      obtain ⟨w, _, hr⟩ := exbind_ok hrest
      simp at hr
      rw [← hr.2]
      exact hg
    | architecture =>
      obtain ⟨w, _, hr⟩ := exbind_ok hrest
      simp at hr
      rw [← hr.2]
      exact hg
    | host =>
      obtain ⟨w, _, hr⟩ := exbind_ok hrest
      simp at hr
      rw [← hr.2]
      exact hg

theorem gfi_good {c : Client} {t : ObjType} {id? : Option JVal} {s : FState}
    {v : Option JVal} {s1 : FState}
    (hg : good_state s) (h : get_from_id c t id? s = .ok (v, s1)) :
    good_state s1 := by
  obtain ⟨w, hw⟩ := gfi_inv_state h
  exact gofi_good hg hw

theorem gfi_log_mem {c : Client} {t : ObjType} {id? : Option JVal} {s : FState}
    {v : Option JVal} {s1 : FState}
    (h : get_from_id c t id? s = .ok (v, s1)) :
    ∀ p ∈ s1.fetchLog, p ∈ s.fetchLog ∨ p.1 = t := by
  obtain ⟨w, hw⟩ := gfi_inv_state h
  exact gofi_log_mem hw

theorem gft_inv {c : Client} {t : ObjType} {host : JVal} {s : FState}
    {v : Option JVal} {s1 : FState}
    (h : get_from_type c t host s = .ok (v, s1)) :
    ∃ id?, pyGet host (t.key ++ "_id") = .ok id? ∧
      get_from_id c t id? s = .ok (v, s1) := by
  simp only [get_from_type] at h
  obtain ⟨id?, hid, hrest⟩ := exbind_ok h
  exact ⟨id?, hid, hrest⟩

theorem gft_good {c : Client} {t : ObjType} {host : JVal} {s : FState}
    {v : Option JVal} {s1 : FState}
    (hg : good_state s) (h : get_from_type c t host s = .ok (v, s1)) :
    good_state s1 := by
  obtain ⟨id?, _, hrest⟩ := gft_inv h
  exact gfi_good hg hrest

theorem gft_log_mem {c : Client} {t : ObjType} {host : JVal} {s : FState}
    {v : Option JVal} {s1 : FState}
    (h : get_from_type c t host s = .ok (v, s1)) :
    ∀ p ∈ s1.fetchLog, p ∈ s.fetchLog ∨ p.1 = t := by
  obtain ⟨id?, _, hrest⟩ := gft_inv h
  exact gfi_log_mem hrest

theorem gfi_none (c : Client) (t : ObjType) (s : FState) :
    get_from_id c t none s = .ok (none, s) := rfl

theorem gft_absent {c : Client} {t : ObjType} {host : JVal} {s : FState}
    (habs : pyGet host (t.key ++ "_id") = .ok none) :
    get_from_type c t host s = .ok (none, s) := by
  simp only [get_from_type, habs]
  rfl

theorem rtf_good (c : Client) (meta : JVal) :
    ∀ (ts : List ObjType) (hd : List (String × Option JVal)) (s : FState)
      (hd1 : List (String × Option JVal)) (s1 : FState),
      good_state s → resolve_type_fields c meta ts hd s = .ok (hd1, s1) →
      good_state s1 := by
  intro ts
  induction ts with
  | nil =>
    intro hd s hd1 s1 hg h
    simp [resolve_type_fields] at h
    exact h.2 ▸ hg
  | cons t rest ih =>
    intro hd s hd1 s1 hg h
    simp [resolve_type_fields] at h
    obtain ⟨⟨v, s2⟩, hv, hrec⟩ := exbind_ok h
    exact ih _ _ _ _ (gft_good hg hv) hrec

theorem rtf_log_no_hg (c : Client) (meta : JVal)
    (habs : pyGet meta "hostgroup_id" = .ok none) :
    ∀ (ts : List ObjType) (hd : List (String × Option JVal)) (s : FState)
      (hd1 : List (String × Option JVal)) (s1 : FState),
      resolve_type_fields c meta ts hd s = .ok (hd1, s1) →
      ∀ p ∈ s1.fetchLog, p.1 = ObjType.hostgroup → p ∈ s.fetchLog := by
  intro ts
  induction ts with
  | nil =>
    intro hd s hd1 s1 h p hp _
    simp [resolve_type_fields] at h
    exact h.2 ▸ hp
  | cons t rest ih =>
    intro hd s hd1 s1 h p hp hphg
    simp [resolve_type_fields] at h
    obtain ⟨⟨v, s2⟩, hv, hrec⟩ := exbind_ok h
    have hp2 : p ∈ s2.fetchLog := ih _ _ _ _ hrec p hp hphg
    by_cases ht : t = ObjType.hostgroup
    · subst ht
      have hid : pyGet meta (ObjType.hostgroup.key ++ "_id") = .ok none := by
        have hkey : ObjType.hostgroup.key ++ "_id" = "hostgroup_id" := by decide
        rw [hkey]
        exact habs
      have := gft_absent (c := c) (s := s) hid
      rw [hv] at this
      simp at this
      exact this.2 ▸ hp2
    · rcases gft_log_mem hv p hp2 with hold | hnew
      · exact hold
      · exact absurd (hnew.symm.trans hphg) ht

theorem rtf_append (c : Client) (meta : JVal) :
    ∀ (ts1 ts2 : List ObjType) (hd : List (String × Option JVal)) (s : FState),
      resolve_type_fields c meta (ts1 ++ ts2) hd s =
        match resolve_type_fields c meta ts1 hd s with
        | .error e => .error e
        | .ok (hd2, s2) => resolve_type_fields c meta ts2 hd2 s2 := by
  intro ts1
  induction ts1 with
  | nil =>
    intro ts2 hd s
    simp [resolve_type_fields]
  | cons t rest ih =>
    intro ts2 hd s
    cases hg : get_from_type c t meta s with
    | error e =>
      simp [resolve_type_fields, hg, Bind.bind, Except.bind]
    | ok r =>
      obtain ⟨v, s2⟩ := r
      simp [resolve_type_fields, hg, Bind.bind, Except.bind]
      exact ih ts2 (dset hd t.key v) s2

theorem ghi_inv {c : Client} {hid : Option JVal} {s : FState}
    {hd : List (String × Option JVal)} {sf : FState}
    (h : get_host_info c hid s = .ok (hd, sf)) :
    (∃ s1, get_object_from_id c ObjType.host hid s = .ok (none, s1) ∧
      hd = [] ∧ sf = s1) ∨
    (∃ meta s1 hd1 hd2 s2 hd3 osv s3 hd4 hd5 ipv,
      get_object_from_id c ObjType.host hid s = .ok (some meta, s1) ∧
      copy_meta_fields meta ["id", "ip", "name", "status"] [] = .ok hd1 ∧
      resolve_type_fields c meta
        [.model, .compute_resource, .domain, .subnet, .architecture, .hostgroup] hd1 s1 =
        .ok (hd2, s2) ∧
      copy_at_fields meta ["created", "updated"] hd2 = .ok hd3 ∧
      get_from_type c .operatingsystem meta s2 = .ok (osv, s3) ∧
      hd4 = dset hd3 "os" osv ∧
      hd5 = (match env_lookup meta with
             | some nm => dset hd4 "environment" (some (JVal.str nm))
             | none => hd4) ∧
      dget hd5 "ip" = some ipv ∧
      hd = dset hd5 "ansible_ssh_host" ipv ∧ sf = s3) := by
  simp only [get_host_info] at h
  obtain ⟨⟨meta?, s1⟩, hg, hrest⟩ := exbind_ok h
  cases meta? with
  | none =>
    left
    simp at hrest
    exact ⟨s1, hg, hrest.1, hrest.2.symm⟩
  | some meta =>
    right
    obtain ⟨hd1, h1, hrest2⟩ := exbind_ok hrest
    obtain ⟨⟨hd2, s2⟩, h2, hrest3⟩ := exbind_ok hrest2
    obtain ⟨hd3, h3, hrest4⟩ := exbind_ok hrest3
    obtain ⟨⟨osv, s3⟩, h4, hrest5⟩ := exbind_ok hrest4
    refine ⟨meta, s1, hd1, hd2, s2, hd3, osv, s3, dset hd3 "os" osv, ?_⟩
    cases henv : env_lookup meta with
    | some nm =>
      simp only [henv] at hrest5
      cases hdip : dget (dset (dset hd3 "os" osv) "environment" (some (JVal.str nm))) "ip" with
      | none => simp [hdip] at hrest5
      | some ipv =>
        simp only [hdip] at hrest5
        simp at hrest5
        exact ⟨dset (dset hd3 "os" osv) "environment" (some (JVal.str nm)), ipv,
          hg, h1, h2, h3, h4, rfl, by simp [henv], hdip, hrest5.1.symm, hrest5.2.symm⟩
    | none =>
      simp only [henv] at hrest5
      cases hdip : dget (dset hd3 "os" osv) "ip" with
      | none => simp [hdip] at hrest5
      | some ipv =>
        simp only [hdip] at hrest5
        simp at hrest5
        exact ⟨dset hd3 "os" osv, ipv,
          hg, h1, h2, h3, h4, rfl, by simp [henv], hdip, hrest5.1.symm, hrest5.2.symm⟩

theorem ghi_good {c : Client} {hid : Option JVal} {s : FState}
    {hd : List (String × Option JVal)} {sf : FState}
    (hgs : good_state s) (h : get_host_info c hid s = .ok (hd, sf)) :
    good_state sf := by
  rcases ghi_inv h with ⟨s1, hg, _, rfl⟩ |
    ⟨meta, s1, hd1, hd2, s2, hd3, osv, s3, hd4, hd5, ipv, hg, _, h2, _, h4, _, _, _, _, rfl⟩
  · exact gofi_good hgs hg
  · exact gft_good (rtf_good c meta _ _ _ _ _ (gofi_good hgs hg) h2) h4

theorem il_good (c : Client) :
    ∀ (ws : List JVal) (gs : GroupMap) (s : FState) (gs1 : GroupMap) (s1 : FState),
      good_state s → inventory_loop c ws gs s = .ok (gs1, s1) → good_state s1 := by
  intro ws
  induction ws with
  | nil =>
    intro gs s gs1 s1 hg h
    simp [inventory_loop] at h
    exact h.2 ▸ hg
  | cons w rest ih =>
    intro gs s gs1 s1 hg h
    simp only [inventory_loop] at h
    obtain ⟨hgid, _, h2⟩ := exbind_ok h
    obtain ⟨⟨hgv, s2⟩, hgfi, h3⟩ := exbind_ok h2
    obtain ⟨namev, _, h4⟩ := exbind_ok h3
    exact ih _ _ _ _ (gfi_good hg hgfi) h4

theorem gi_good {c : Client} {s : FState} {gs : GroupMap} {s1 : FState}
    (hg : good_state s) (h : get_inventory c s = .ok (gs, s1)) : good_state s1 := by
  unfold get_inventory at h
  rcases hfp : fetch_all_pages c with ⟨hosts, reqs⟩
  rw [hfp] at h
  by_cases hlen : hosts.length < 1
  · simp [hlen] at h
    exact h.2 ▸ hg
  · simp [hlen] at h
    exact il_good c _ _ _ _ _ hg h

theorem chd_good (c : Client) :
    ∀ (ns : List (Option JVal)) (acc : Hostvars) (s : FState) (hv : Hostvars) (s1 : FState),
      good_state s → collect_host_details c ns acc s = .ok (hv, s1) → good_state s1 := by
  intro ns
  induction ns with
  | nil =>
    intro acc s hv s1 hg h
    simp [collect_host_details] at h
    exact h.2 ▸ hg
  | cons n rest ih =>
    intro acc s hv s1 hg h
    simp only [collect_host_details] at h
    obtain ⟨⟨d, s2⟩, hghi, h2⟩ := exbind_ok h
    exact ih _ _ _ _ (ghi_good hg hghi) h2

theorem ga_inv {c : Client} {s : FState} {d : InventoryDoc} {s2 : FState}
    (h : get_all c s = .ok (d, s2)) :
    ∃ gs s1 hv,
      get_inventory c s = .ok (gs, s1) ∧
      collect_host_details c (py_dedup (all_group_names gs) []) [] s1 = .ok (hv, s2) ∧
      d = ⟨gs, some hv⟩ := by
  simp only [get_all] at h
  obtain ⟨⟨gs, s1⟩, hgi, h2⟩ := exbind_ok h
  obtain ⟨⟨hv, s2x⟩, hchd, h3⟩ := exbind_ok h2
  simp at h3
  exact ⟨gs, s1, hv, hgi, h3.2 ▸ hchd, h3.1.symm⟩

theorem ga_good {c : Client} {s : FState} {d : InventoryDoc} {s2 : FState}
    (hg : good_state s) (h : get_all c s = .ok (d, s2)) : good_state s2 := by
  obtain ⟨gs, s1, hv, hgi, hchd, _⟩ := ga_inv h
  exact chd_good c _ _ _ _ _ (gi_good hg hgi) hchd

theorem md_good {c : Client} {a : CLIArgs} {s : FState} {out : CLIOutput} {s1 : FState}
    (hg : good_state s) (h : main_dispatch c a s = .ok (out, s1)) : good_state s1 := by
  unfold main_dispatch at h
  split at h
  · obtain ⟨⟨d, s2⟩, hga, h2⟩ := exbind_ok h
    simp at h2
    exact h2.2 ▸ ga_good hg hga
  · split at h
    · obtain ⟨⟨hd, s2⟩, hghi, h2⟩ := exbind_ok h
      simp at h2
      exact h2.2 ▸ ghi_good hg hghi
    · split at h
      · obtain ⟨⟨gs, s2⟩, hgi, h2⟩ := exbind_ok h
        simp at h2
        exact h2.2 ▸ gi_good hg hgi
      · simp at h
        exact h.2 ▸ hg

theorem good_empty : good_state empty_cache_state := by
  constructor
  · simp [empty_cache_state]
  · intro p hp
    simp [empty_cache_state] at hp

theorem rsl_missing (cfg : IniConfig) :
    ∀ (rs : List String) (st0 : List (String × String)) (ms0 : List String)
      (stf : List (String × String)) (msf : List String),
      read_settings_loop cfg rs st0 ms0 = .ok (stf, msf) → msf = ms0 := by
  intro rs
  induction rs with
  | nil =>
    intro st0 ms0 stf msf h
    simp [read_settings_loop] at h
    exact h.2.symm
  | cons r rest ih =>
    intro st0 ms0 stf msf h
    simp only [read_settings_loop] at h
    obtain ⟨val, _, h2⟩ := exbind_ok h
    exact ih _ _ _ _ h2

theorem rsl_error_shape (cfg : IniConfig) :
    ∀ (rs : List String) (st0 : List (String × String)) (ms0 : List String) (e : String),
      read_settings_loop cfg rs st0 ms0 = .error e →
      e = no_section_msg "foreman" ∨ ∃ opt, e = no_option_msg opt "foreman" := by
  intro rs
  induction rs with
  | nil =>
    intro st0 ms0 e h
    simp [read_settings_loop] at h
  | cons r rest ih =>
    intro st0 ms0 e h
    simp only [read_settings_loop] at h
    cases hc : cfg.get "foreman" r with
    | error e0 =>
      rw [hc] at h
      simp [Bind.bind, Except.bind] at h
      subst h
      unfold IniConfig.get at hc
      cases hsec : ini_lookup cfg.sections "foreman" with
      | none =>
        rw [hsec] at hc
        simp at hc
        exact Or.inl hc.symm
      | some opts =>
        rw [hsec] at hc
        simp only [] at hc
        cases hopt : ini_lookup opts r with
        | none =>
          rw [hopt] at hc
          simp at hc
          exact Or.inr ⟨r, hc.symm⟩
        | some v =>
          rw [hopt] at hc
          simp at hc
    | ok val =>
      rw [hc] at h
      simp only [Bind.bind, Except.bind] at h
      exact ih _ _ _ h

/-- C7 (code_bug): the claim says a missing required setting produces an error
enumerating exactly the missing names.  The code intends this (source lines
110-118 build the `missing` list and an enumerating exception), but
`ConfigParser.get` raises on an absent option instead of returning `None`, so
the enumeration is dead code.  Conjunct 1 evaluates the code on a
configuration missing both `base_url` and `password`: it raises the
`NoOptionError` naming only `base_url`.  Conjunct 2 shows the `missing`
accumulator never grows, and conjunct 3 that every outcome of settings
loading is an ok result or a `ConfigParser` error, never the enumerating
message. -/
theorem read_settings_missing_enumeration :
    read_settings cfg_missing_two = .error (no_option_msg "base_url" "foreman") ∧
    (∀ (cfg : IniConfig) (rs : List String) (st0 : List (String × String))
        (ms0 : List String) (stf : List (String × String)) (msf : List String),
        read_settings_loop cfg rs st0 ms0 = .ok (stf, msf) → msf = ms0) ∧
    (∀ cfg : IniConfig,
        (∃ st, read_settings cfg = .ok st) ∨
        read_settings cfg = .error (no_section_msg "foreman") ∨
        (∃ opt, read_settings cfg = .error (no_option_msg opt "foreman"))) := by
  refine ⟨by rfl, rsl_missing, ?_⟩
  intro cfg
  cases hl : read_settings_loop cfg required_settings [] [] with
  | error e =>
    have hshape := rsl_error_shape cfg required_settings [] [] e hl
    have hres : read_settings cfg = .error e := by
      simp [read_settings, hl, Bind.bind, Except.bind]
    rcases hshape with h1 | ⟨opt, h1⟩
    · exact Or.inr (Or.inl (h1 ▸ hres))
    · exact Or.inr (Or.inr ⟨opt, h1 ▸ hres⟩)
  | ok r =>
    obtain ⟨st, ms⟩ := r
    have hms : ms = [] := rsl_missing cfg required_settings [] [] st ms hl
    subst hms
    left
    refine ⟨st, ?_⟩
    simp [read_settings, hl, Bind.bind, Except.bind]

theorem read_settings_missing_enumeration_witness :
    read_settings_loop cfg_missing_two ["username"] [] [] = .ok ([("username", "u")], []) ∧
    ([] : List String) = [] :=
  ⟨by rfl, read_settings_missing_enumeration.2.1 cfg_missing_two ["username"] [] []
    [("username", "u")] [] (by rfl)⟩

/-- C10: the parsed `--list` option is always true (its default is `True` and
the flag can only store `True`), so the dispatch of `CLIMain.__init__` never
reaches the final fallback branch: the printed document is never the bare
empty mapping of the `else` arm. -/
theorem cli_dispatch_never_empty :
    (∀ (af : Bool) (ho : Option String) (lf : Bool),
        (parse_cli_args af ho lf).list = true) ∧
    (∀ (af : Bool) (ho : Option String) (lf : Bool) (c : Client) (s : FState)
        (out : CLIOutput) (s1 : FState),
        main_dispatch c (parse_cli_args af ho lf) s = .ok (out, s1) →
        out ≠ CLIOutput.empty_map) := by
  constructor
  · intro af ho lf
    simp [parse_cli_args]
  · intro af ho lf c s out s1 h
    unfold main_dispatch at h
    split at h
    · obtain ⟨⟨d, s2⟩, _, h2⟩ := exbind_ok h
      simp at h2
      rw [← h2.1]
      simp
    · split at h
      · obtain ⟨⟨hd, s2⟩, _, h2⟩ := exbind_ok h
        simp at h2
        rw [← h2.1]
        simp
      · split at h
        · obtain ⟨⟨gs, s2⟩, _, h2⟩ := exbind_ok h
          simp at h2
          rw [← h2.1]
          simp
        · rename_i hlist
          simp [parse_cli_args] at hlist

theorem cli_dispatch_never_empty_witness :
    main_dispatch fix_client (parse_cli_args false none false) empty_cache_state =
      .ok (.doc ⟨fix_groups, none⟩, fix_state1) ∧
    CLIOutput.doc ⟨fix_groups, none⟩ ≠ CLIOutput.empty_map :=
  ⟨by rfl, cli_dispatch_never_empty.2 false none false fix_client empty_cache_state
    (.doc ⟨fix_groups, none⟩) fix_state1 (by rfl)⟩

/-- C8 counterexample: the claim says the inventory result always carries a
`_meta.hostvars` entry, present but empty outside `--all` mode.  Running list
mode on the fixture client shows the printed mapping has no `_meta` key at
all (`meta = none`), not a present-but-empty one: `get_inventory` returns the
bare grouping dict and never touches `_empty_inventory`. -/
theorem list_mode_meta_absent_counterexample :
    main_dispatch fix_client args_list empty_cache_state =
      .ok (.doc ⟨fix_groups, none⟩, fix_state1) ∧
    (InventoryDoc.mk fix_groups none).meta ≠ some ([] : Hostvars) :=
  ⟨by rfl, by decide⟩

/-- C8 (amended): the `_meta.hostvars` mapping is attached only in `--all`
mode; in list mode the printed mapping carries no `_meta` key at all. -/
theorem meta_key_only_in_all_mode :
    (∀ (c : Client) (s : FState) (out : CLIOutput) (s1 : FState),
        main_dispatch c args_list s = .ok (out, s1) →
        ∃ gs, out = .doc ⟨gs, none⟩) ∧
    (∀ (c : Client) (s : FState) (out : CLIOutput) (s1 : FState),
        main_dispatch c args_all s = .ok (out, s1) →
        ∃ gs hv, out = .doc ⟨gs, some hv⟩) := by
  constructor
  · intro c s out s1 h
    simp only [main_dispatch, args_list, parse_cli_args, py_truthy_str] at h
    simp at h
    obtain ⟨⟨gs, s2⟩, _, h2⟩ := exbind_ok h
    simp at h2
    exact ⟨gs, h2.1.symm⟩
  · intro c s out s1 h
    simp only [main_dispatch, args_all, parse_cli_args] at h
    simp at h
    obtain ⟨⟨d, s2⟩, hga, h2⟩ := exbind_ok h
    simp at h2
    obtain ⟨gs, s1x, hv, _, _, hd⟩ := ga_inv hga
    exact ⟨gs, hv, by rw [← h2.1, hd]⟩

theorem meta_key_only_in_all_mode_witness :
    main_dispatch fix_client args_list empty_cache_state =
      .ok (.doc ⟨fix_groups, none⟩, fix_state1) ∧
    ∃ gs, CLIOutput.doc ⟨fix_groups, none⟩ = .doc ⟨gs, none⟩ :=
  ⟨by rfl, meta_key_only_in_all_mode.1 fix_client empty_cache_state
    (.doc ⟨fix_groups, none⟩) fix_state1 (by rfl)⟩

/-- C4: the display projection of `_get_from_id` is type-specific: hostgroup
entities project to their `label`, operating systems to the formatted
`name-major` string, environments to the lower-cased `name`, every other type
to `name`; and a missing underlying entity projects to missing. -/
theorem display_projections :
    (∀ (c : Client) (id? : Option JVal) (s : FState) (param : JVal) (s1 : FState)
        (lv : Option JVal),
        get_object_from_id c ObjType.hostgroup id? s = .ok (some param, s1) →
        pyGet param "label" = .ok lv →
        get_from_id c ObjType.hostgroup id? s = .ok (lv, s1)) ∧
    (∀ (c : Client) (id? : Option JVal) (s : FState) (param : JVal) (s1 : FState)
        (n m : Option JVal),
        get_object_from_id c ObjType.operatingsystem id? s = .ok (some param, s1) →
        pyGet param "name" = .ok n → pyGet param "major" = .ok m →
        get_from_id c ObjType.operatingsystem id? s =
          .ok (some (.str (pyStr n ++ "-" ++ pyStr m)), s1)) ∧
    (∀ (c : Client) (id? : Option JVal) (s : FState) (param : JVal) (s1 : FState)
        (nm : String),
        get_object_from_id c ObjType.environment id? s = .ok (some param, s1) →
        pyGet param "name" = .ok (some (.str nm)) →
        get_from_id c ObjType.environment id? s = .ok (some (.str (pyLower nm)), s1)) ∧
    (∀ (c : Client) (t : ObjType) (id? : Option JVal) (s : FState) (param : JVal)
        (s1 : FState) (nv : Option JVal),
        t ≠ ObjType.hostgroup → t ≠ ObjType.operatingsystem → t ≠ ObjType.environment →
        get_object_from_id c t id? s = .ok (some param, s1) →
        pyGet param "name" = .ok nv →
        get_from_id c t id? s = .ok (nv, s1)) ∧
    (∀ (c : Client) (t : ObjType) (id? : Option JVal) (s : FState) (s1 : FState),
        get_object_from_id c t id? s = .ok (none, s1) →
        get_from_id c t id? s = .ok (none, s1)) := by
  refine ⟨?_, ?_, ?_, ?_, ?_⟩
  · intro c id? s param s1 lv hres hlab
    simp [get_from_id, hres, hlab, Bind.bind, Except.bind]
  · intro c id? s param s1 n m hres hn hm
    simp [get_from_id, hres, hn, hm, Bind.bind, Except.bind]
  · intro c id? s param s1 nm hres hn
    simp [get_from_id, hres, hn, Bind.bind, Except.bind]
  · intro c t id? s param s1 nv hhg hos henv hres hn
    cases t <;>
      first
      | exact absurd rfl hos
      | exact absurd rfl hhg
      | exact absurd rfl henv
      | simp [get_from_id, hres, hn, Bind.bind, Except.bind]
  · intro c t id? s s1 hres
    simp [get_from_id, hres, Bind.bind, Except.bind]

theorem display_projections_witness :
    get_object_from_id fix_client ObjType.operatingsystem (some (.num 3))
      empty_cache_state = .ok (some os3_entity, os3_state) ∧
    pyGet os3_entity "name" = .ok (some (.str "CentOS")) ∧
    pyGet os3_entity "major" = .ok (some (.str "7")) ∧
    get_from_id fix_client ObjType.operatingsystem (some (.num 3)) empty_cache_state =
      .ok (some (.str (pyStr (some (.str "CentOS")) ++ "-" ++ pyStr (some (.str "7")))),
        os3_state) :=
  ⟨by rfl, by rfl, by rfl,
    display_projections.2.1 fix_client (some (.num 3)) empty_cache_state os3_entity
      os3_state (some (.str "CentOS")) (some (.str "7"))
      (by rfl) (by rfl) (by rfl)⟩

/-- C6: a host id that resolves to no host entity makes `get_host_info`
return the empty mapping instead of raising; an absent foreign key resolves
to missing without error; an absent `environment` level makes the guarded
nested lookup yield nothing without error. -/
theorem host_not_found_empty :
    (∀ (c : Client) (hid : Option JVal) (s : FState) (s1 : FState),
        get_object_from_id c ObjType.host hid s = .ok (none, s1) →
        get_host_info c hid s = .ok ([], s1)) ∧
    (∀ (c : Client) (t : ObjType) (host : JVal) (s : FState),
        pyGet host (t.key ++ "_id") = .ok none →
        get_from_type c t host s = .ok (none, s)) ∧
    (∀ meta : JVal, pyGet meta "environment" = .ok none → env_lookup meta = none) := by
  refine ⟨?_, ?_, ?_⟩
  · intro c hid s s1 h
    simp [get_host_info, h, Bind.bind, Except.bind]
  · intro c t host s h
    exact gft_absent h
  · intro meta h
    simp [env_lookup, h]

theorem host_not_found_empty_witness :
    get_object_from_id fix_client ObjType.host (some (.str "nosuch"))
      empty_cache_state = .ok (none, nosuch_state) ∧
    get_host_info fix_client (some (.str "nosuch")) empty_cache_state =
      .ok ([], nosuch_state) :=
  ⟨by rfl, host_not_found_empty.1 fix_client (some (.str "nosuch"))
    empty_cache_state nosuch_state (by rfl)⟩

/-- C9: the `environment` output field comes from the guarded nested lookup
`environment.environment.name` on the raw host record, lower-cased
(conjunct 1 characterizes exactly when it produces a value), and
`get_host_info` attaches the field exactly when the lookup succeeds — a
broken level yields an absent field, never an error (conjunct 2). -/
theorem env_nested_lookup :
    (∀ (meta : JVal) (r : String),
        env_lookup meta = some r ↔
          ∃ e1 e2 nm, pyGet meta "environment" = .ok (some e1) ∧
            pyGet e1 "environment" = .ok (some e2) ∧
            pyGet e2 "name" = .ok (some (.str nm)) ∧ r = pyLower nm) ∧
    (∀ (c : Client) (hid : Option JVal) (s : FState)
        (hd : List (String × Option JVal)) (sf : FState),
        get_host_info c hid s = .ok (hd, sf) →
        hd = [] ∨
        ∃ meta s1, get_object_from_id c ObjType.host hid s = .ok (some meta, s1) ∧
          dget hd "environment" =
            Option.map (fun nm => some (JVal.str nm)) (env_lookup meta)) := by
  constructor
  · intro meta r
    constructor
    · intro h
      cases h1 : pyGet meta "environment" with
      | error e => simp [env_lookup, h1] at h
      | ok o1 =>
        cases o1 with
        | none => simp [env_lookup, h1] at h
        | some e1 =>
          cases h2 : pyGet e1 "environment" with
          | error e => simp [env_lookup, h1, h2] at h
          | ok o2 =>
            cases o2 with
            | none => simp [env_lookup, h1, h2] at h
            | some e2 =>
              cases h3 : pyGet e2 "name" with
              | error e => simp [env_lookup, h1, h2, h3] at h
              | ok o3 =>
                match o3 with
                | none => simp [env_lookup, h1, h2, h3] at h
                | some (.num n) => simp [env_lookup, h1, h2, h3] at h
                | some (.obj fs) => simp [env_lookup, h1, h2, h3] at h
                | some (.str nm) =>
                  simp [env_lookup, h1, h2, h3] at h
                  exact ⟨_, _, _, rfl, h2, h3, h.symm⟩
    · rintro ⟨e1, e2, nm, h1, h2, h3, rfl⟩
      simp [env_lookup, h1, h2, h3]
  · intro c hid s hd sf h
    rcases ghi_inv h with ⟨s1, _, rfl, _⟩ |
      ⟨meta, s1, hd1, hd2, s2, hd3, osv, s3, hd4, hd5, ipv,
        hg, h1, h2, h3, h4, hhd4, hhd5, hip, hhd, hsf⟩
    · exact Or.inl rfl
    · right
      refine ⟨meta, s1, hg, ?_⟩
      have hane : dget hd "environment" = dget hd5 "environment" := by
        rw [hhd, dget_dset_ne]
        decide
      rw [hane]
      cases henv : env_lookup meta with
      | some nm =>
        rw [hhd5]
        simp only [henv]
        rw [dget_dset_self]
        rfl
      | none =>
        rw [hhd5]
        simp only [henv]
        rw [hhd4, dget_dset_ne _ _ _ _ (by decide)]
        have hc3 : dget hd3 "environment" = dget hd2 "environment" :=
          copy_at_fields_dget_ne meta ["created", "updated"] hd2 hd3 "environment"
            (by decide) h3
        have hc2 : dget hd2 "environment" = dget hd1 "environment" :=
          resolve_type_fields_dget_ne c meta
            [.model, .compute_resource, .domain, .subnet, .architecture, .hostgroup]
            hd1 hd2 s1 s2 "environment" (by decide) h2
        have hc1 : dget hd1 "environment" = dget [] "environment" :=
          copy_meta_fields_dget_ne meta ["id", "ip", "name", "status"] [] hd1
            "environment" (by decide) h1
        rw [hc3, hc2, hc1]
        rfl

theorem env_nested_lookup_witness :
    get_host_info fix_client (some (.str "gamma")) empty_cache_state =
      .ok (gamma_hd, gamma_state) ∧
    (gamma_hd = [] ∨
      ∃ meta s1,
        get_object_from_id fix_client ObjType.host (some (.str "gamma"))
          empty_cache_state = .ok (some meta, s1) ∧
        dget gamma_hd "environment" =
          Option.map (fun nm => some (JVal.str nm)) (env_lookup meta)) :=
  ⟨by rfl, env_nested_lookup.2 fix_client (some (.str "gamma")) empty_cache_state
    gamma_hd gamma_state (by rfl)⟩

/-- C5: resolving a reference whose id is absent returns missing and performs
no client fetch (conjuncts 1 and 2: the state, hence the fetch log, is
unchanged); in particular a host record without `hostgroup_id` yields a
missing `hostgroup` value in the detail mapping and no hostgroup fetch is
ever issued during that `get_host_info` run (conjunct 3). -/
theorem absent_reference_no_fetch :
    (∀ (c : Client) (t : ObjType) (s : FState),
        get_object_from_id c t none s = .ok (none, s)) ∧
    (∀ (c : Client) (t : ObjType) (host : JVal) (s : FState),
        pyGet host (t.key ++ "_id") = .ok none →
        get_from_type c t host s = .ok (none, s)) ∧
    (∀ (c : Client) (hid : Option JVal) (s : FState) (meta : JVal) (s0 : FState)
        (hd : List (String × Option JVal)) (sf : FState),
        get_object_from_id c ObjType.host hid s = .ok (some meta, s0) →
        pyGet meta "hostgroup_id" = .ok none →
        get_host_info c hid s = .ok (hd, sf) →
        dget hd "hostgroup" = some none ∧
        (∀ j, (ObjType.hostgroup, j) ∈ sf.fetchLog →
          (ObjType.hostgroup, j) ∈ s.fetchLog)) := by
  refine ⟨fun c t s => rfl, fun c t host s h => gft_absent h, ?_⟩
  intro c hid s meta s0 hd sf hmeta habs h
  rcases ghi_inv h with ⟨s1, hg, _, _⟩ |
    ⟨meta2, s1, hd1, hd2, s2, hd3, osv, s3, hd4, hd5, ipv,
      hg, h1, h2, h3, h4, hhd4, hhd5, hip, hhd, hsf⟩
  · rw [hmeta] at hg
    simp at hg
  · rw [hmeta] at hg
    simp at hg
    obtain ⟨hmeq, hseq⟩ := hg
    subst hmeq
    subst hseq
    constructor
    · -- the hostgroup key of the detail mapping holds Python None
      have hsplit :
          ([.model, .compute_resource, .domain, .subnet, .architecture, .hostgroup] :
            List ObjType) =
          [.model, .compute_resource, .domain, .subnet, .architecture] ++
            [.hostgroup] := rfl
      rw [hsplit, rtf_append] at h2
      cases hmid : resolve_type_fields c meta
          [.model, .compute_resource, .domain, .subnet, .architecture] hd1 s0 with
      | error e =>
        rw [hmid] at h2
        simp at h2
      | ok r =>
        obtain ⟨hd2a, s2a⟩ := r
        rw [hmid] at h2
        simp only [] at h2
        have hkey : pyGet meta (ObjType.hostgroup.key ++ "_id") = .ok none := habs
        have hgftn := gft_absent (c := c) (s := s2a) hkey
        simp only [resolve_type_fields, hgftn, Bind.bind, Except.bind] at h2
        simp at h2
        obtain ⟨hhd2, _⟩ := h2
        have hv2 : dget hd2 "hostgroup" = some none := by
          rw [← hhd2]
          have hkg : ObjType.hostgroup.key = "hostgroup" := rfl
          rw [hkg, dget_dset_self]
        have hc3 : dget hd3 "hostgroup" = dget hd2 "hostgroup" :=
          copy_at_fields_dget_ne meta ["created", "updated"] hd2 hd3 "hostgroup"
            (by decide) h3
        have hfin : dget hd "hostgroup" = dget hd5 "hostgroup" := by
          rw [hhd, dget_dset_ne _ _ _ _ (by decide)]
        rw [hfin]
        cases henv : env_lookup meta with
        | some nm =>
          rw [hhd5]
          simp only [henv]
          rw [dget_dset_ne _ _ _ _ (by decide), hhd4,
            dget_dset_ne _ _ _ _ (by decide), hc3, hv2]
        | none =>
          rw [hhd5]
          simp only [henv]
          rw [hhd4, dget_dset_ne _ _ _ _ (by decide), hc3, hv2]
    · -- no hostgroup-typed fetch is added anywhere in the run
      intro j hj
      rw [hsf] at hj
      have hj2 : (ObjType.hostgroup, j) ∈ s2.fetchLog := by
        rcases gft_log_mem h4 _ hj with hold | hnew
        · exact hold
        · simp at hnew
      have hj1 : (ObjType.hostgroup, j) ∈ s0.fetchLog :=
        rtf_log_no_hg c meta habs _ _ _ _ _ h2 _ hj2 rfl
      rcases gofi_log_mem hmeta _ hj1 with hold | hnew
      · exact hold
      · simp at hnew

theorem absent_reference_no_fetch_witness :
    get_object_from_id fix_client ObjType.host (some (.str "gamma"))
      empty_cache_state = .ok (some rec_gamma, gamma_state) ∧
    pyGet rec_gamma "hostgroup_id" = .ok none ∧
    get_host_info fix_client (some (.str "gamma")) empty_cache_state =
      .ok (gamma_hd, gamma_state) ∧
    (dget gamma_hd "hostgroup" = some none ∧
      (∀ j, (ObjType.hostgroup, j) ∈ gamma_state.fetchLog →
        (ObjType.hostgroup, j) ∈ empty_cache_state.fetchLog)) :=
  ⟨by rfl, by rfl, by rfl,
    absent_reference_no_fetch.2.2 fix_client (some (.str "gamma")) empty_cache_state
      rec_gamma gamma_state gamma_hd gamma_state (by rfl) (by rfl) (by rfl)⟩

theorem range'_cons (s n : Nat) : List.range' s (n + 1) = s :: List.range' (s + 1) n := rfl

theorem index_pages_loop_spec (c : Client) :
    ∀ (fuel page : Nat), 1 ≤ page → 1 ≤ fuel →
      c.hostPages.length + 2 ≤ fuel + page →
      ((index_pages_loop c fuel page).2 =
        List.range' page (index_pages_loop c fuel page).2.length ∧
       1 ≤ (index_pages_loop c fuel page).2.length ∧
       c.index_hosts (page + (index_pages_loop c fuel page).2.length - 1) = [] ∧
       (∀ p, page ≤ p → p < page + (index_pages_loop c fuel page).2.length - 1 →
         c.index_hosts p ≠ []) ∧
       (index_pages_loop c fuel page).1 =
         (List.range' page ((index_pages_loop c fuel page).2.length - 1)).flatMap
           c.index_hosts) := by
  intro fuel
  induction fuel with
  | zero =>
    intro page _ hf _
    exact absurd hf (by omega)
  | succ fuel ih =>
    intro page hp _ hbound
    by_cases hresp : (c.index_hosts page).length < 1
    · have hnil : c.index_hosts page = [] := by
        cases hx : c.index_hosts page with
        | nil => rfl
        | cons a as => rw [hx] at hresp; simp at hresp
      simp only [index_pages_loop, hresp, if_true]
      refine ⟨by simp [List.range'_one], by simp, ?_, ?_, by simp⟩
      · simpa using hnil
      · intro p hp1 hp2
        simp at hp2
        omega
    · have hfuel1 : 1 ≤ fuel := by
        by_contra hf0
        have hf : fuel = 0 := by omega
        subst hf
        have hpage : c.hostPages.length ≤ page - 1 := by omega
        have : c.index_hosts page = [] := by
          unfold Client.index_hosts
          exact List.getD_eq_default _ _ hpage
        rw [this] at hresp
        simp at hresp
      obtain ⟨ih1, ih2, ih3, ih4, ih5⟩ :=
        ih (page + 1) (by omega) hfuel1 (by omega)
      rcases hr : index_pages_loop c fuel (page + 1) with ⟨hs', reqs'⟩
      rw [hr] at ih1 ih2 ih3 ih4 ih5
      simp only at ih1 ih2 ih3 ih4 ih5
      have hloop : index_pages_loop c (fuel + 1) page =
          (c.index_hosts page ++ hs', page :: reqs') := by
        simp only [index_pages_loop, hresp, if_false, hr]
      rw [hloop]
      simp only []
      refine ⟨?_, by simp, ?_, ?_, ?_⟩
      · rw [List.length_cons, range'_cons, ← ih1]
      · have harith : page + (reqs'.length + 1) - 1 = page + 1 + reqs'.length - 1 := by
          omega
        rw [List.length_cons, harith]
        exact ih3
      · intro p hp1 hp2
        rw [List.length_cons] at hp2
        by_cases hpp : p = page
        · subst hpp
          intro hnil
          rw [hnil] at hresp
          simp at hresp
        · exact ih4 p (by omega) (by omega)
      · rw [List.length_cons]
        have hl1 : reqs'.length + 1 - 1 = (reqs'.length - 1) + 1 := by omega
        rw [hl1, range'_cons, List.flatMap_cons, ih5]

theorem glookup_append_self :
    ∀ (gs : GroupMap) (k v : Option JVal),
      glookup (groups_append gs k v) k = some ((glookup gs k).getD [] ++ [v]) := by
  intro gs
  induction gs with
  | nil => intro k v; simp [groups_append, glookup]
  | cons e rest ih =>
    intro k v
    obtain ⟨k0, vs⟩ := e
    by_cases hk : k0 = k
    · subst hk
      simp [groups_append, glookup]
    · simp [groups_append, glookup, hk, ih]

theorem glookup_append_other :
    ∀ (gs : GroupMap) (k k2 v : Option JVal),
      k2 ≠ k → glookup (groups_append gs k v) k2 = glookup gs k2 := by
  intro gs
  induction gs with
  | nil =>
    intro k k2 v hne
    have hne2 : ¬ k = k2 := fun h => hne h.symm
    simp [groups_append, glookup, hne2]
  | cons e rest ih =>
    intro k k2 v hne
    obtain ⟨k0, vs⟩ := e
    by_cases hk : k0 = k
    · subst hk
      have hne2 : ¬ k0 = k2 := fun h => hne h.symm
      simp [groups_append, glookup, hne2]
    · by_cases hk2 : k0 = k2
      · subst hk2
        simp [groups_append, glookup, hk]
      · simp [groups_append, glookup, hk, hk2, ih _ _ _ hne]

/-- C2: `get_inventory` requests pages sequentially from page 1, stopping at
the first empty page (conjunct 1 characterizes the request list of the
pagination loop: consecutive numbers from 1, all but the last page nonempty,
the last empty, and the host list is their concatenation).  On a source with
2 hosts on page 1 it issues exactly the 2 requests `[1, 2]` and groups both
host names under the resolved hostgroup label in encounter order
(conjuncts 2 and 3).  Each host name is appended at the end of the list of
its group key and other groups are untouched (conjuncts 4 and 5); with no
hosts the grouping is empty (conjunct 6). -/
theorem get_inventory_pagination :
    (∀ c : Client,
        (fetch_all_pages c).2 = List.range' 1 (fetch_all_pages c).2.length ∧
        1 ≤ (fetch_all_pages c).2.length ∧
        c.index_hosts (fetch_all_pages c).2.length = [] ∧
        (∀ p, 1 ≤ p → p < (fetch_all_pages c).2.length → c.index_hosts p ≠ []) ∧
        (fetch_all_pages c).1 =
          (List.range' 1 ((fetch_all_pages c).2.length - 1)).flatMap c.index_hosts) ∧
    (fetch_all_pages fix_client).2 = [1, 2] ∧
    get_inventory fix_client empty_cache_state = .ok (fix_groups, fix_state1) ∧
    (∀ (gs : GroupMap) (k v : Option JVal),
        glookup (groups_append gs k v) k = some ((glookup gs k).getD [] ++ [v])) ∧
    (∀ (gs : GroupMap) (k k2 v : Option JVal),
        k2 ≠ k → glookup (groups_append gs k v) k2 = glookup gs k2) ∧
    (∀ (c : Client) (s : FState), c.hostPages = [] → get_inventory c s = .ok ([], s)) := by
  refine ⟨?_, by rfl, by rfl, glookup_append_self, glookup_append_other, ?_⟩
  · intro c
    have hfp : fetch_all_pages c = index_pages_loop c (c.hostPages.length + 1) 1 := rfl
    rw [hfp]
    have h := index_pages_loop_spec c (c.hostPages.length + 1) 1 (by omega) (by omega)
      (by omega)
    obtain ⟨h1, h2, h3, h4, h5⟩ := h
    refine ⟨h1, h2, ?_, ?_, h5⟩
    · have : 1 + (index_pages_loop c (c.hostPages.length + 1) 1).2.length - 1 =
          (index_pages_loop c (c.hostPages.length + 1) 1).2.length := by omega
      rw [this] at h3
      exact h3
    · intro p hp1 hp2
      exact h4 p hp1 (by omega)
  · intro c s h
    obtain ⟨pages, so⟩ := c
    simp only at h
    subst h
    rfl

theorem get_inventory_pagination_witness :
    empty_client.hostPages = [] ∧
    get_inventory empty_client empty_cache_state = .ok ([], empty_cache_state) :=
  ⟨rfl, get_inventory_pagination.2.2.2.2.2 empty_client empty_cache_state rfl⟩

theorem pd_mem :
    ∀ (xs acc : List (Option JVal)) (n : Option JVal),
      n ∈ py_dedup xs acc ↔ n ∈ acc ∨ n ∈ xs := by
  intro xs
  induction xs with
  | nil =>
    intro acc n
    simp [py_dedup]
  | cons x rest ih =>
    intro acc n
    by_cases hx : x ∈ acc
    · rw [show py_dedup (x :: rest) acc = py_dedup rest acc from by
        simp [py_dedup, hx], ih]
      constructor
      · rintro (h | h)
        · exact Or.inl h
        · exact Or.inr (List.mem_cons_of_mem _ h)
      · rintro (h | h)
        · exact Or.inl h
        · rcases List.mem_cons.mp h with rfl | h2
          · exact Or.inl hx
          · exact Or.inr h2
    · rw [show py_dedup (x :: rest) acc = py_dedup rest (acc ++ [x]) from by
        simp [py_dedup, hx], ih]
      simp [List.mem_append, List.mem_cons]
      tauto

theorem pd_nodup :
    ∀ (xs acc : List (Option JVal)), acc.Nodup → (py_dedup xs acc).Nodup := by
  intro xs
  induction xs with
  | nil =>
    intro acc hacc
    simpa [py_dedup] using hacc
  | cons x rest ih =>
    intro acc hacc
    by_cases hx : x ∈ acc
    · rw [show py_dedup (x :: rest) acc = py_dedup rest acc from by
        simp [py_dedup, hx]]
      exact ih acc hacc
    · rw [show py_dedup (x :: rest) acc = py_dedup rest (acc ++ [x]) from by
        simp [py_dedup, hx]]
      refine ih (acc ++ [x]) ?_
      simp [List.nodup_append, hacc, hx]

theorem chd_map_fst (c : Client) :
    ∀ (ns : List (Option JVal)) (acc : Hostvars) (s : FState) (hv : Hostvars)
      (s1 : FState),
      collect_host_details c ns acc s = .ok (hv, s1) →
      hv.map Prod.fst = acc.map Prod.fst ++ ns := by
  intro ns
  induction ns with
  | nil =>
    intro acc s hv s1 h
    simp [collect_host_details] at h
    simp [h.1.symm]
  | cons n rest ih =>
    intro acc s hv s1 h
    simp only [collect_host_details] at h
    obtain ⟨⟨d, s2⟩, _, h2⟩ := exbind_ok h
    have := ih (acc ++ [(n, d)]) s2 hv s1 h2
    simpa using this

/-- C1: during a full program run from the empty cache, the client fetch is
issued at most once per `(type, id)` pair — the fetch log of any successful
dispatch is duplicate-free (conjunct 1) — and a resolution request for an
already-fetched pair leaves the state untouched and returns the projection of
the wrapper stored in the per-type cache (conjunct 2). -/
theorem fetch_at_most_once :
    (∀ (c : Client) (a : CLIArgs) (out : CLIOutput) (s1 : FState),
        main_dispatch c a empty_cache_state = .ok (out, s1) →
        s1.fetchLog.Nodup) ∧
    (∀ (c : Client) (t : ObjType) (i : JVal) (s : FState) (v : Option JVal)
        (s1 : FState),
        cache_complete s → (t, i) ∈ s.fetchLog →
        get_object_from_id c t (some i) s = .ok (v, s1) →
        s1 = s ∧ ∃ obj, cacheLookup s.cache (t, i) = some obj ∧
          pyGet obj t.key = .ok v) := by
  constructor
  · intro c a out s1 h
    exact (md_good good_empty h).1
  · intro c t i s v s1 hcc hmem h
    have hsome := hcc (t, i) hmem
    rcases gofi_inv h with ⟨hnone, _, _⟩ | ⟨i2, obj2, hi2, hcl2, hpg, rfl⟩ |
      ⟨i2, hi2, hcl2, _, _⟩
    · exact absurd hnone (by simp)
    · have hi : i2 = i := by simpa using hi2.symm
      subst hi
      exact ⟨rfl, obj2, hcl2, hpg⟩
    · have hi : i2 = i := by simpa using hi2.symm
      subst hi
      rw [hcl2] at hsome
      simp at hsome

theorem fetch_at_most_once_witness :
    cache_complete fix_state1 ∧
    (ObjType.hostgroup, JVal.num 7) ∈ fix_state1.fetchLog ∧
    get_object_from_id fix_client ObjType.hostgroup (some (.num 7)) fix_state1 =
      .ok (some hg7_entity, fix_state1) ∧
    (fix_state1 = fix_state1 ∧
      ∃ obj, cacheLookup fix_state1.cache (ObjType.hostgroup, JVal.num 7) = some obj ∧
        pyGet obj ObjType.hostgroup.key = .ok (some hg7_entity)) :=
  ⟨by intro p hp; simp [fix_state1] at hp; subst hp; rfl,
   by simp [fix_state1],
   by rfl,
   fetch_at_most_once.2 fix_client ObjType.hostgroup (.num 7) fix_state1
     (some hg7_entity) fix_state1
     (by intro p hp; simp [fix_state1] at hp; subst hp; rfl)
     (by simp [fix_state1])
     (by rfl)⟩

/-- C3: `get_all` keeps the computed grouping, deduplicates host names across
all groups (first-encounter order), runs `get_host_info` once per distinct
name, and attaches the results as `_meta.hostvars` with exactly one entry per
distinct host name. -/
theorem get_all_dedup_hostvars :
    ∀ (c : Client) (s : FState) (d : InventoryDoc) (s2 : FState),
      get_all c s = .ok (d, s2) →
      ∃ gs s1 hv,
        get_inventory c s = .ok (gs, s1) ∧
        d.groups = gs ∧
        d.meta = some hv ∧
        hv.map Prod.fst = py_dedup (all_group_names gs) [] ∧
        (hv.map Prod.fst).Nodup ∧
        (∀ n, n ∈ hv.map Prod.fst ↔ n ∈ all_group_names gs) ∧
        collect_host_details c (py_dedup (all_group_names gs) []) [] s1 =
          .ok (hv, s2) := by
  intro c s d s2 h
  obtain ⟨gs, s1, hv, hgi, hchd, hd⟩ := ga_inv h
  have hmap : hv.map Prod.fst = py_dedup (all_group_names gs) [] := by
    have := chd_map_fst c (py_dedup (all_group_names gs) []) [] s1 hv s2 hchd
    simpa using this
  refine ⟨gs, s1, hv, hgi, by rw [hd], by rw [hd], hmap, ?_, ?_, hchd⟩
  · rw [hmap]
    exact pd_nodup _ [] (by simp)
  · intro n
    rw [hmap, pd_mem]
    simp

theorem get_all_dedup_hostvars_witness :
    get_all dup_client empty_cache_state = .ok (dup_doc, dup_state2) ∧
    (∃ gs s1 hv,
      get_inventory dup_client empty_cache_state = .ok (gs, s1) ∧
      dup_doc.groups = gs ∧
      dup_doc.meta = some hv ∧
      hv.map Prod.fst = py_dedup (all_group_names gs) [] ∧
      (hv.map Prod.fst).Nodup ∧
      (∀ n, n ∈ hv.map Prod.fst ↔ n ∈ all_group_names gs) ∧
      collect_host_details dup_client (py_dedup (all_group_names gs) []) [] s1 =
        .ok (hv, dup_state2)) :=
  ⟨by rfl, get_all_dedup_hostvars dup_client empty_cache_state dup_doc dup_state2
    (by rfl)⟩
